import Mathlib

/-!
Shallow embedding of the core of `pgvectorscale`:

* `src/timescale_vector/src/access_method/pq_quantizer_storage.rs`
  (`write_pq`, `read_pq`, `PqQuantizerDef`, `PqQuantizerVector`), and
* `src/timescale_vector/src/access_method/builder_graph.rs`
  (`BuilderGraph`, `WriteStats`).

Modelling conventions:

* `ItemPointer` keeps its two fields `block_number`/`offset` as `Nat`;
  the zero/zero value is the chain-terminating sentinel exactly as in the
  source (`next.offset == 0 && next.block_number == 0`).
* `f32` payload elements are only moved around, never computed with, so they
  are modelled by `Int`.
* The `Tape` append log (`util::tape::Tape`, not under `src/`) is modelled as
  the list of records written on it, in write order; the record written as the
  `j`-th item (0-based) is addressed by the pointer `⟨j + 1, 1⟩`, so that no
  valid record ever has the zero/zero address, matching the host's convention
  that offsets of live tuples start at 1.
* The `block_fit` page capacity, computed in the source from `BLCKSZ` and
  `size_of` (memory-layout constants), is kept as a parameter; the source
  value is a fixed constant ≥ 1.
* Rust `loop`s are modelled with an explicit fuel argument using structural
  recursion.  `write_pq` is always run with fuel `vec.length + 1`, which is
  proven sufficient for every `block_fit ≥ 1`.  `read_pq`'s loop, which has
  no bound in the source, takes the fuel as an extra argument; running out of
  fuel yields the distinguished `ChainResult.running` outcome (the traversal
  is still going), which is distinct from both success and a read failure.
-/

namespace PgVS

/-- `ItemPointer` from `util`: a (block number, offset) pair addressing a
stored record.  `⟨0, 0⟩` is the chain-terminating sentinel. -/
structure ItemPointer where
  block_number : Nat
  offset : Nat
deriving DecidableEq, Repr

/-- The zero/zero sentinel pointer (`ItemPointer { block_number: 0, offset: 0 }`). -/
def zeroPointer : ItemPointer := ⟨0, 0⟩

/-- `PqQuantizerVector` (pq_quantizer_storage.rs, lines 75-81): one chunk of
the flattened centroid tensor plus the back-pointer to the previously written
chunk. -/
structure PqQuantizerVector where
  vec : List Int
  next_vector_pointer : ItemPointer
deriving DecidableEq, Repr

/-- `PqQuantizerDef` (pq_quantizer_storage.rs, lines 22-31): the header record
holding the tensor shape, the flattened element count and the pointer to the
last-written chunk. -/
structure PqQuantizerDef where
  dim_0 : Nat
  dim_1 : Nat
  dim_2 : Nat
  vec_len : Nat
  next_vector_pointer : ItemPointer
deriving DecidableEq, Repr

/-- `PqQuantizerDef::new` (lines 34-47): the `next_vector_pointer` starts as
the zero/zero sentinel. -/
def PqQuantizerDef.new (dim_0 dim_1 dim_2 vec_len : Nat) : PqQuantizerDef :=
  ⟨dim_0, dim_1, dim_2, vec_len, zeroPointer⟩

/-- The tape (`util::tape::Tape`, outside `src/`), modelled from the spec
(§4.1): an append-only log; `items` lists the records in write order, and the
`j`-th written record is addressed by `⟨j + 1, 1⟩`. -/
structure Tape where
  items : List PqQuantizerVector
deriving DecidableEq, Repr

/-- `Tape::new`: an empty tape. -/
def Tape.new : Tape := ⟨[]⟩

/-- `Tape::write`: appends the record and returns its (fresh, non-sentinel)
address. -/
def Tape.write (t : Tape) (v : PqQuantizerVector) : Tape × ItemPointer :=
  (⟨t.items ++ [v]⟩, ⟨t.items.length + 1, 1⟩)

/-- Reading a record back by pointer (`PqQuantizerVector::read`, lines 88-95);
`none` models a read of a dangling pointer, which is fatal in the host. -/
def Tape.read (t : Tape) (p : ItemPointer) : Option PqQuantizerVector :=
  if p.offset = 1 ∧ 1 ≤ p.block_number then t.items[p.block_number - 1]? else none

/-- `Pq<f32>` as used by `write_pq`/`read_pq`: only its subquantizer tensor is
stored, a 3-dimensional array of shape `(dim_0, dim_1, dim_2)` whose elements
are kept flattened in memory order in `data` (ndarray guarantees
`data.length = dim_0 * dim_1 * dim_2`; theorems take that as a hypothesis). -/
structure Pq where
  dim_0 : Nat
  dim_1 : Nat
  dim_2 : Nat
  data : List Int
deriving DecidableEq, Repr

/-- `ndarray::Array3::from_shape_vec` as invoked at read_pq lines 133-137:
succeeds exactly when the element count matches the product of the shape
triple (the `.unwrap()` in the source turns the error case into a panic,
modelled by `none` propagating out of `read_pq`). -/
def Array3.from_shape_vec (dim_0 dim_1 dim_2 : Nat) (v : List Int) : Option Pq :=
  if v.length = dim_0 * dim_1 * dim_2 then some ⟨dim_0, dim_1, dim_2, v⟩ else none

/-- The `loop` of `write_pq` (pq_quantizer_storage.rs, lines 159-176), with
fuel: take the last `block_fit` remaining elements (`ni` is the split point,
`if l > block_fit { l - block_fit } else { 0 }`), write them as a chunk whose
back-pointer is the previously returned address (`prev`), and recurse on the
front part.  When the remaining vector is empty it returns the tape and the
address of the last-written chunk (in the source this is where the header is
written).  Fuel 0 is never reached when called with fuel `≥ length + 1` and
`block_fit ≥ 1`. -/
def writePqLoop (block_fit : Nat) :
    Nat → ItemPointer → List Int → Tape → Tape × ItemPointer
  | 0, prev, _, tape => (tape, prev)
  | fuel + 1, prev, prev_vec, tape =>
    if prev_vec.length = 0 then (tape, prev)
    else
      let ni := if prev_vec.length > block_fit then prev_vec.length - block_fit else 0
      let wr := Tape.write tape ⟨prev_vec.drop ni, prev⟩
      writePqLoop block_fit fuel wr.2 (prev_vec.take ni) wr.1

/-- `write_pq` (pq_quantizer_storage.rs, lines 141-177): flatten the tensor,
write the chunks back-to-front on a fresh tape, and finally build the header
(`PqQuantizerDef` with `vec_len = vec.len()`) pointing at the last-written
chunk.  Returns the chunk tape and the header record. -/
def write_pq (block_fit : Nat) (pq : Pq) : Tape × PqQuantizerDef :=
  let vec := pq.data
  let pq_node := PqQuantizerDef.new pq.dim_0 pq.dim_1 pq.dim_2 vec.length
  let res := writePqLoop block_fit (vec.length + 1) zeroPointer vec Tape.new
  (res.1, { pq_node with next_vector_pointer := res.2 })

/-- Outcome of running `read_pq`'s chain-following loop for a given number of
steps: `done` — the zero/zero sentinel was reached with the assembled
elements; `readFail` — a pointer did not resolve to a stored record (fatal
host read); `running` — the fuel ran out with the traversal still going (the
source loop, which has no bound, would simply keep iterating). -/
inductive ChainResult where
  | done : List Int → ChainResult
  | readFail : ChainResult
  | running : ItemPointer → List Int → ChainResult
deriving DecidableEq, Repr

/-- The `loop` of `read_pq` (pq_quantizer_storage.rs, lines 123-132), with
fuel: stop on the zero/zero sentinel, otherwise read the chunk at `next`,
append its elements to the accumulator and follow its back-pointer. -/
def readPqLoop (t : Tape) : Nat → ItemPointer → List Int → ChainResult
  | 0, next, acc => .running next acc
  | fuel + 1, next, acc =>
    if next.offset = 0 ∧ next.block_number = 0 then .done acc
    else
      match Tape.read t next with
      | none => .readFail
      | some vn => readPqLoop t fuel vn.next_vector_pointer (acc ++ vn.vec)

/-- Number of chain hops (chunk reads) `read_pq`'s loop performs within the
given number of steps. -/
def readPqHops (t : Tape) : Nat → ItemPointer → Nat
  | 0, _ => 0
  | fuel + 1, next =>
    if next.offset = 0 ∧ next.block_number = 0 then 0
    else
      match Tape.read t next with
      | none => 1
      | some vn => 1 + readPqHops t fuel vn.next_vector_pointer

/-- `read_pq` (pq_quantizer_storage.rs, lines 111-139): follow the chain from
the header's `next_vector_pointer` accumulating elements, then rebuild the
tensor with `Array3::from_shape_vec` against the header's shape triple
(`rpn.dim_0 * rpn.dim_1 * rpn.dim_2` is used only as a capacity hint for the
result buffer).  `fuel` bounds the loop as explained above; a loop that does
not finish within the fuel, like a failing read or a failing reshape, yields
`none`. -/
def read_pq (t : Tape) (hdr : PqQuantizerDef) (fuel : Nat) : Option Pq :=
  match readPqLoop t fuel hdr.next_vector_pointer [] with
  | .done result => Array3.from_shape_vec hdr.dim_0 hdr.dim_1 hdr.dim_2 result
  | _ => none

/-- Pure description of the records `writePqLoop` appends, used to
characterize the written tape: first the tail chunk (back-pointer `prev`),
then, recursively, the chunks of the remaining front part; a chunk appended
after the one at address `⟨base + 1, 1⟩` carries that address as its
back-pointer. -/
def chunkItems (block_fit : Nat) :
    Nat → ItemPointer → Nat → List Int → List PqQuantizerVector
  | 0, _, _, _ => []
  | fuel + 1, prev, base, v =>
    if v.length = 0 then []
    else
      let ni := if v.length > block_fit then v.length - block_fit else 0
      ⟨v.drop ni, prev⟩ :: chunkItems block_fit fuel ⟨base + 1, 1⟩ (base + 1) (v.take ni)

/-- Modelled from the spec (§4.4, the chunking discipline `write_pq` is
claimed to follow): "Split the flattened sequence into page-sized chunks
starting from the tail: repeatedly take the last `fit_per_page` remaining
elements (or all remaining elements if fewer) as one chunk ... and continue
until no elements remain."  The list is in write order (tail chunk first). -/
def specTailChunks (fit : Nat) : Nat → List Int → List (List Int)
  | 0, _ => []
  | fuel + 1, v =>
    if v.length = 0 then []
    else
      v.drop (v.length - min fit v.length)
        :: specTailChunks fit fuel (v.take (v.length - min fit v.length))

/-- Concatenation of the chunks of a chain in decode order: the chain is
traversed from the last-written record backwards, so the assembled content is
the reversed write-order concatenation. -/
def chainContent (cs : List PqQuantizerVector) : List Int :=
  ((cs.map fun c => c.vec).reverse).flatten

/-- `NeighborWithDistance` (`model.rs`, outside `src/`), modelled from the
spec (§3): a pointer to the neighbor node with the cached distance (an `f32`
that is only carried, modelled by `Int`). -/
structure NeighborWithDistance where
  index_pointer : ItemPointer
  distance : Int
deriving DecidableEq, Repr

/-- Modelled from the spec: `MetaPage` (`meta_page.rs`, outside `src/`) as far
as `BuilderGraph` consults it — the entry-point list (`get_init_ids`, `None`
before the first node is committed) and the configured maximum fan-out
(`get_num_neighbors`). -/
structure MetaPage where
  init_ids : Option (List ItemPointer)
  num_neighbors : Nat
deriving DecidableEq, Repr

/-- `MetaPage::get_init_ids`. -/
def MetaPage.get_init_ids (m : MetaPage) : Option (List ItemPointer) := m.init_ids

/-- `MetaPage::get_num_neighbors`: the configured maximum fan-out. -/
def MetaPage.get_num_neighbors (m : MetaPage) : Nat := m.num_neighbors

/-- `BuilderGraph` (builder_graph.rs, lines 18-23): the in-memory adjacency
map plus the metadata snapshot.  The `HashMap` is modelled as its list of
(key, value) entries with at most one entry per key; insertion replaces any
existing entry for the key, as `HashMap::insert` does. -/
structure BuilderGraph where
  neighbor_map : List (ItemPointer × List NeighborWithDistance)
  meta_page : MetaPage
deriving DecidableEq, Repr

/-- `HashMap::get` on the entry list: first entry with the given key. -/
def lookupNeighbors :
    List (ItemPointer × List NeighborWithDistance) → ItemPointer →
    Option (List NeighborWithDistance)
  | [], _ => none
  | e :: rest, k => if e.1 = k then some e.2 else lookupNeighbors rest k

/-- `HashMap::insert` on the entry list: replaces the entry for the key (any
previous binding is dropped, never accumulated). -/
def mapInsert (m : List (ItemPointer × List NeighborWithDistance))
    (k : ItemPointer) (v : List NeighborWithDistance) :
    List (ItemPointer × List NeighborWithDistance) :=
  (m.filter fun e => decide (¬e.1 = k)) ++ [(k, v)]

/-- `BuilderGraph::set_neighbors` (builder_graph.rs, lines 130-142): when the
metadata has no entry points yet, register this node's pointer as the sole
entry point (`MetaPage::update_init_ids(index, vec![neighbors_of])` followed
by a re-read, modelled from the spec since `meta_page.rs` is outside `src/`);
then overwrite the map entry for the node with the supplied list. -/
def BuilderGraph.set_neighbors (g : BuilderGraph) (neighbors_of : ItemPointer)
    (new_neighbors : List NeighborWithDistance) : BuilderGraph :=
  let mp :=
    if (g.meta_page.get_init_ids).isNone
    then { g.meta_page with init_ids := some [neighbors_of] }
    else g.meta_page
  { neighbor_map := mapInsert g.neighbor_map neighbors_of new_neighbors,
    meta_page := mp }

/-- `BuilderGraph::get_neighbors_with_distances` (builder_graph.rs, lines
100-116): pushes the stored neighbors onto `result` and returns `true` when
the map has an entry for the node, returns `false` otherwise. -/
def BuilderGraph.get_neighbors_with_distances (g : BuilderGraph)
    (neighbors_of : ItemPointer) (result : List NeighborWithDistance) :
    List NeighborWithDistance × Bool :=
  match lookupNeighbors g.neighbor_map neighbors_of with
  | some n => (result ++ n, true)
  | none => (result, false)

/-- `BuilderGraph::is_empty` (builder_graph.rs, lines 118-120):
`self.neighbor_map.len() == 0`. -/
def BuilderGraph.is_empty (g : BuilderGraph) : Bool :=
  g.neighbor_map.length == 0

/-- `WriteStats` (builder_graph.rs, lines 145-152) without the wall-clock
`started` field (real time is not modelled; it is observability only). -/
structure WriteStats where
  num_nodes : Nat
  num_prunes : Nat
  num_neighbors_before_prune : Nat
  num_neighbors_after_prune : Nat
  num_neighbors : Nat
deriving DecidableEq, Repr

/-- `WriteStats::new` (lines 154-164): all counters zero. -/
def WriteStats.new : WriteStats := ⟨0, 0, 0, 0, 0⟩

/-- The per-node loop of `BuilderGraph::write` (builder_graph.rs, lines
44-74): for each map entry, bump `num_nodes`; when the list is longer than
the configured maximum invoke the pruning policy (modelled from the spec as a
function from the node pointer to a pruned list, since
`Graph::prune_neighbors` lives in `graph.rs`, outside `src/`) updating the
prune counters, otherwise keep the list; persist the chosen list on the node
(`set_neighbors` on the archived node plus `commit`, modelled as the output
entry) and bump `num_neighbors`. -/
def writeNodeLoop (max_fan : Nat)
    (prune : ItemPointer → List NeighborWithDistance) :
    List (ItemPointer × List NeighborWithDistance) → WriteStats →
    List (ItemPointer × List NeighborWithDistance) × WriteStats
  | [], stats => ([], stats)
  | (index_pointer, neighbors) :: rest, stats =>
    let stats1 := { stats with num_nodes := stats.num_nodes + 1 }
    if neighbors.length > max_fan then
      let prune_neighbors := prune index_pointer
      let stats3 :=
        { stats1 with
          num_prunes := stats1.num_prunes + 1,
          num_neighbors_before_prune :=
            stats1.num_neighbors_before_prune + neighbors.length,
          num_neighbors_after_prune :=
            stats1.num_neighbors_after_prune + prune_neighbors.length,
          num_neighbors := stats1.num_neighbors + prune_neighbors.length }
      let res := writeNodeLoop max_fan prune rest stats3
      ((index_pointer, prune_neighbors) :: res.1, res.2)
    else
      let stats3 :=
        { stats1 with num_neighbors := stats1.num_neighbors + neighbors.length }
      let res := writeNodeLoop max_fan prune rest stats3
      ((index_pointer, neighbors) :: res.1, res.2)

/-- `BuilderGraph::write` (builder_graph.rs, lines 39-76): iterate every map
entry, starting from fresh statistics.  Returns the persisted (pointer,
neighbor list) pairs in iteration order and the final statistics.  The
quantizer branch (lines 62-72) touches neither the neighbor lists nor the
statistics and is not modelled. -/
def BuilderGraph.write (g : BuilderGraph)
    (prune : ItemPointer → List NeighborWithDistance) :
    List (ItemPointer × List NeighborWithDistance) × WriteStats :=
  writeNodeLoop g.meta_page.get_num_neighbors prune g.neighbor_map WriteStats.new

/-! ## Helper lemmas: unfolding equations -/

theorem writePqLoop_succ (bf fuel : Nat) (prev : ItemPointer) (v : List Int) (t : Tape) :
    writePqLoop bf (fuel + 1) prev v t =
      if v.length = 0 then (t, prev)
      else
        writePqLoop bf fuel
          ⟨t.items.length + 1, 1⟩
          (v.take (if v.length > bf then v.length - bf else 0))
          ⟨t.items ++ [⟨v.drop (if v.length > bf then v.length - bf else 0), prev⟩]⟩ := rfl

theorem chunkItems_succ (bf fuel : Nat) (prev : ItemPointer) (base : Nat) (v : List Int) :
    chunkItems bf (fuel + 1) prev base v =
      if v.length = 0 then []
      else
        ⟨v.drop (if v.length > bf then v.length - bf else 0), prev⟩ ::
          chunkItems bf fuel ⟨base + 1, 1⟩ (base + 1)
            (v.take (if v.length > bf then v.length - bf else 0)) := rfl

theorem specTailChunks_succ (bf fuel : Nat) (v : List Int) :
    specTailChunks bf (fuel + 1) v =
      if v.length = 0 then []
      else
        v.drop (v.length - min bf v.length)
          :: specTailChunks bf fuel (v.take (v.length - min bf v.length)) := rfl

theorem readPqLoop_succ (t : Tape) (fuel : Nat) (next : ItemPointer) (acc : List Int) :
    readPqLoop t (fuel + 1) next acc =
      if next.offset = 0 ∧ next.block_number = 0 then .done acc
      else
        match Tape.read t next with
        | none => .readFail
        | some vn => readPqLoop t fuel vn.next_vector_pointer (acc ++ vn.vec) := rfl

theorem readPqHops_succ (t : Tape) (fuel : Nat) (next : ItemPointer) :
    readPqHops t (fuel + 1) next =
      if next.offset = 0 ∧ next.block_number = 0 then 0
      else
        match Tape.read t next with
        | none => 1
        | some vn => 1 + readPqHops t fuel vn.next_vector_pointer := rfl

theorem chunkItems_nil (bf fuel : Nat) (prev : ItemPointer) (base : Nat)
    (v : List Int) (hv : v.length = 0) :
    chunkItems bf fuel prev base v = [] := by
  cases fuel with
  | zero => rfl
  | succ fuel => rw [chunkItems_succ, if_pos hv]

/-! ## Helper lemmas: arithmetic of the chunk split -/

theorem ni_lt (bf l : Nat) (hfit : 1 ≤ bf) (hl : l ≠ 0) :
    (if l > bf then l - bf else 0) < l := by
  by_cases h : l > bf <;> simp [h] <;> omega

theorem ceil_div_le (bf L : Nat) (hfit : 1 ≤ bf) : (L + bf - 1) / bf ≤ L := by
  cases L with
  | zero =>
    have h0 : (0 + bf - 1) / bf = 0 := Nat.div_eq_of_lt (by omega)
    omega
  | succ n =>
    rw [show n + 1 + bf - 1 = n + bf from by omega, Nat.add_div_right _ (by omega)]
    have := Nat.div_le_self n bf
    omega

theorem ceil_div_pos (bf L : Nat) (hfit : 1 ≤ bf) (hL : 1 ≤ L) :
    1 ≤ (L + bf - 1) / bf := by
  rw [show L + bf - 1 = (L - 1) + bf from by omega, Nat.add_div_right _ (by omega)]
  exact Nat.succ_le_succ (Nat.zero_le _)

/-! ## Helper lemmas: structure of the written chain -/

theorem writePqLoop_spec (bf : Nat) (hfit : 1 ≤ bf) :
    ∀ (fuel : Nat) (v : List Int) (prev : ItemPointer) (t : Tape), v.length < fuel →
      writePqLoop bf fuel prev v t =
        (⟨t.items ++ chunkItems bf fuel prev t.items.length v⟩,
         if v.length = 0 then prev
         else ⟨t.items.length + (chunkItems bf fuel prev t.items.length v).length, 1⟩) := by
  intro fuel
  induction fuel with
  | zero => intro v prev t h; omega
  | succ fuel ih =>
    intro v prev t h
    by_cases hv : v.length = 0
    · rw [writePqLoop_succ, if_pos hv, chunkItems_nil bf (fuel + 1) prev t.items.length v hv,
        if_pos hv]
      cases t
      simp
    · have hni := ni_lt bf v.length hfit hv
      rw [writePqLoop_succ, if_neg hv, chunkItems_succ, if_neg hv]
      set ni := if v.length > bf then v.length - bf else 0 with hnidef
      have hlen : (v.take ni).length = ni := by rw [List.length_take]; omega
      have hlt : (v.take ni).length < fuel := by omega
      rw [ih (v.take ni) ⟨t.items.length + 1, 1⟩
        (Tape.mk (t.items ++ [PqQuantizerVector.mk (v.drop ni) prev])) hlt]
      simp only [List.length_append, List.length_singleton, List.length_cons,
        List.length_nil, Nat.zero_add, hlen]
      rw [if_neg hv]
      simp only [Prod.mk.injEq]
      constructor
      · congr 1
        simp
      · by_cases hni0 : ni = 0
        · rw [if_pos hni0, chunkItems_nil bf fuel _ _ _ (by rw [hlen, hni0])]
          simp
        · rw [if_neg hni0]
          congr 1
          omega

theorem chunkItems_map_vec (bf : Nat) :
    ∀ (fuel : Nat) (prev : ItemPointer) (base : Nat) (v : List Int),
      (chunkItems bf fuel prev base v).map (fun c => c.vec) = specTailChunks bf fuel v := by
  intro fuel
  induction fuel with
  | zero => intro prev base v; rfl
  | succ fuel ih =>
    intro prev base v
    by_cases hv : v.length = 0
    · rw [chunkItems_succ, if_pos hv, specTailChunks_succ, if_pos hv]
      rfl
    · rw [chunkItems_succ, if_neg hv, specTailChunks_succ, if_neg hv]
      have hni : (if v.length > bf then v.length - bf else 0) = v.length - min bf v.length := by
        by_cases hbf : v.length > bf
        · rw [if_pos hbf, Nat.min_eq_left (Nat.le_of_lt hbf)]
        · rw [if_neg hbf, Nat.min_eq_right (by omega)]
          omega
      rw [List.map_cons, ih, hni]

theorem chunkItems_content (bf : Nat) (hfit : 1 ≤ bf) :
    ∀ (fuel : Nat) (prev : ItemPointer) (base : Nat) (v : List Int), v.length < fuel →
      chainContent (chunkItems bf fuel prev base v) = v := by
  intro fuel
  induction fuel with
  | zero => intro prev base v h; omega
  | succ fuel ih =>
    intro prev base v h
    by_cases hv : v.length = 0
    · rw [chunkItems_nil bf _ _ _ _ hv]
      rw [List.length_eq_zero] at hv
      rw [hv]
      rfl
    · have hni := ni_lt bf v.length hfit hv
      rw [chunkItems_succ, if_neg hv]
      set ni := if v.length > bf then v.length - bf else 0 with hnidef
      have hlen : (v.take ni).length = ni := by rw [List.length_take]; omega
      unfold chainContent
      rw [List.map_cons, List.reverse_cons, List.flatten_append]
      have hcs := ih ⟨base + 1, 1⟩ (base + 1) (v.take ni) (by omega)
      unfold chainContent at hcs
      rw [hcs]
      simp [List.take_append_drop]

theorem chunkItems_next (bf : Nat) :
    ∀ (fuel : Nat) (prev : ItemPointer) (base : Nat) (v : List Int) (j : Nat)
      (c : PqQuantizerVector),
      (chunkItems bf fuel prev base v)[j]? = some c →
      c.next_vector_pointer = if j = 0 then prev else ⟨base + j, 1⟩ := by
  intro fuel
  induction fuel with
  | zero => intro prev base v j c hc; simp [chunkItems] at hc
  | succ fuel ih =>
    intro prev base v j c hc
    by_cases hv : v.length = 0
    · rw [chunkItems_nil bf _ _ _ _ hv] at hc
      simp at hc
    · rw [chunkItems_succ, if_neg hv] at hc
      cases j with
      | zero =>
        rw [List.getElem?_cons_zero, Option.some_inj] at hc
        subst hc
        simp
      | succ j =>
        rw [List.getElem?_cons_succ] at hc
        rw [ih _ _ _ _ _ hc]
        by_cases hj0 : j = 0
        · rw [hj0, if_pos rfl, if_neg (Nat.succ_ne_zero 0)]
        · rw [if_neg hj0, if_neg (Nat.succ_ne_zero j)]
          congr 1
          omega

theorem chunkItems_length (bf : Nat) (hfit : 1 ≤ bf) :
    ∀ (fuel : Nat) (prev : ItemPointer) (base : Nat) (v : List Int), v.length < fuel →
      (chunkItems bf fuel prev base v).length = (v.length + bf - 1) / bf := by
  intro fuel
  induction fuel with
  | zero => intro prev base v h; omega
  | succ fuel ih =>
    intro prev base v h
    by_cases hv : v.length = 0
    · rw [chunkItems_nil bf _ _ _ _ hv, hv]
      exact (Nat.div_eq_of_lt (by omega)).symm
    · have hni := ni_lt bf v.length hfit hv
      rw [chunkItems_succ, if_neg hv, List.length_cons]
      set ni := if v.length > bf then v.length - bf else 0 with hnidef
      have hlen : (v.take ni).length = ni := by rw [List.length_take]; omega
      rw [ih ⟨base + 1, 1⟩ (base + 1) (v.take ni) (by omega), hlen]
      rw [show v.length + bf - 1 = (v.length - 1) + bf from by omega,
        Nat.add_div_right _ (by omega)]
      by_cases hbf : v.length > bf
      · rw [hnidef, if_pos hbf, show v.length - bf + bf - 1 = v.length - 1 from by omega]
      · rw [hnidef, if_neg hbf,
          Nat.div_eq_of_lt (by omega : 0 + bf - 1 < bf),
          Nat.div_eq_of_lt (by omega : v.length - 1 < bf)]

/-! ## Helper lemmas: decoding a stored chain -/

theorem chainContent_nil : chainContent [] = [] := rfl

theorem chainContent_take_succ (cs : List PqQuantizerVector) (k : Nat)
    (hk : k < cs.length) :
    chainContent (cs.take (k + 1)) = cs[k].vec ++ chainContent (cs.take k) := by
  unfold chainContent
  rw [List.take_succ, List.getElem?_eq_getElem hk, Option.toList_some,
    List.map_append, List.reverse_append, List.map_singleton, List.reverse_singleton,
    List.singleton_append, List.flatten_cons]

theorem readPqLoop_chain (cs : List PqQuantizerVector)
    (hnext : ∀ (j : Nat) (c : PqQuantizerVector), cs[j]? = some c →
      c.next_vector_pointer = if j = 0 then zeroPointer else ⟨j, 1⟩) :
    ∀ (k : Nat), k ≤ cs.length → ∀ (acc : List Int) (fuel : Nat), k < fuel →
      readPqLoop ⟨cs⟩ fuel (if k = 0 then zeroPointer else ⟨k, 1⟩) acc =
        .done (acc ++ chainContent (cs.take k)) := by
  intro k
  induction k with
  | zero =>
    intro hk acc fuel hf
    cases fuel with
    | zero => omega
    | succ fuel =>
      rw [if_pos rfl, readPqLoop_succ, if_pos ⟨rfl, rfl⟩]
      simp [chainContent_nil]
  | succ k ih =>
    intro hk acc fuel hf
    cases fuel with
    | zero => omega
    | succ fuel =>
      have hlt : k < cs.length := by omega
      rw [if_neg (Nat.succ_ne_zero k), readPqLoop_succ,
        if_neg (by simp : ¬((⟨k + 1, 1⟩ : ItemPointer).offset = 0 ∧
          (⟨k + 1, 1⟩ : ItemPointer).block_number = 0))]
      have hread : Tape.read ⟨cs⟩ ⟨k + 1, 1⟩ = some cs[k] := by
        unfold Tape.read
        rw [if_pos ⟨rfl, by exact Nat.succ_le_succ (Nat.zero_le k)⟩]
        simp [List.getElem?_eq_getElem hlt]
      rw [hread]
      show readPqLoop ⟨cs⟩ fuel (cs[k]).next_vector_pointer (acc ++ (cs[k]).vec) =
        ChainResult.done (acc ++ chainContent (cs.take (k + 1)))
      have hnx := hnext k cs[k] (List.getElem?_eq_getElem hlt)
      have hk' : k ≤ cs.length := Nat.le_of_lt hlt
      have hf' : k < fuel := by omega
      rw [hnx, ih hk' (acc ++ cs[k].vec) fuel hf', chainContent_take_succ cs k hlt,
        List.append_assoc]

theorem readPqHops_chain (cs : List PqQuantizerVector)
    (hnext : ∀ (j : Nat) (c : PqQuantizerVector), cs[j]? = some c →
      c.next_vector_pointer = if j = 0 then zeroPointer else ⟨j, 1⟩) :
    ∀ (k : Nat), k ≤ cs.length → ∀ (fuel : Nat), k < fuel →
      readPqHops ⟨cs⟩ fuel (if k = 0 then zeroPointer else ⟨k, 1⟩) = k := by
  intro k
  induction k with
  | zero =>
    intro hk fuel hf
    cases fuel with
    | zero => omega
    | succ fuel => rw [if_pos rfl, readPqHops_succ, if_pos ⟨rfl, rfl⟩]
  | succ k ih =>
    intro hk fuel hf
    cases fuel with
    | zero => omega
    | succ fuel =>
      have hlt : k < cs.length := by omega
      rw [if_neg (Nat.succ_ne_zero k), readPqHops_succ,
        if_neg (by simp : ¬((⟨k + 1, 1⟩ : ItemPointer).offset = 0 ∧
          (⟨k + 1, 1⟩ : ItemPointer).block_number = 0))]
      have hread : Tape.read ⟨cs⟩ ⟨k + 1, 1⟩ = some cs[k] := by
        unfold Tape.read
        rw [if_pos ⟨rfl, by exact Nat.succ_le_succ (Nat.zero_le k)⟩]
        simp [List.getElem?_eq_getElem hlt]
      rw [hread]
      show 1 + readPqHops ⟨cs⟩ fuel (cs[k]).next_vector_pointer = k + 1
      have hnx := hnext k cs[k] (List.getElem?_eq_getElem hlt)
      have hk' : k ≤ cs.length := Nat.le_of_lt hlt
      have hf' : k < fuel := by omega
      rw [hnx, ih hk' fuel hf', Nat.add_comm]

/-! ## Helper lemmas: builder graph -/

theorem writeNodeLoop_fst (mf : Nat) (prune : ItemPointer → List NeighborWithDistance) :
    ∀ (entries : List (ItemPointer × List NeighborWithDistance)) (stats : WriteStats),
      (writeNodeLoop mf prune entries stats).1 =
        entries.map (fun e => if mf < e.2.length then (e.1, prune e.1) else e) := by
  intro entries
  induction entries with
  | nil => intro stats; rfl
  | cons e rest ih =>
    intro stats
    obtain ⟨p, ns⟩ := e
    by_cases hc : ns.length > mf
    · simp only [writeNodeLoop, if_pos hc, List.map_cons]
      rw [ih]
    · simp only [writeNodeLoop, if_neg hc, List.map_cons]
      rw [ih]

theorem writeNodeLoop_prunes (mf : Nat) (prune : ItemPointer → List NeighborWithDistance) :
    ∀ (entries : List (ItemPointer × List NeighborWithDistance)) (stats : WriteStats),
      (writeNodeLoop mf prune entries stats).2.num_prunes =
        stats.num_prunes + (entries.filter fun e => decide (mf < e.2.length)).length := by
  intro entries
  induction entries with
  | nil => intro stats; rfl
  | cons e rest ih =>
    intro stats
    obtain ⟨p, ns⟩ := e
    by_cases hc : ns.length > mf
    · simp only [writeNodeLoop, if_pos hc, List.filter_cons]
      rw [ih]
      simp only [hc, decide_True, ite_true, List.length_cons]
      omega
    · simp only [writeNodeLoop, if_neg hc, List.filter_cons]
      rw [ih]
      simp [hc]

theorem lookupNeighbors_append_filter
    (xs ys : List (ItemPointer × List NeighborWithDistance)) (k : ItemPointer) :
    lookupNeighbors ((xs.filter fun e => decide (¬e.1 = k)) ++ ys) k =
      lookupNeighbors ys k := by
  induction xs with
  | nil => rfl
  | cons e rest ih =>
    by_cases he : e.1 = k
    · simp only [List.filter_cons, he]
      simpa using ih
    · simp only [List.filter_cons, decide_not, he, decide_False, Bool.not_false, ite_true,
        List.cons_append]
      rw [lookupNeighbors, if_neg he]
      simpa using ih

theorem lookupNeighbors_mapInsert (m : List (ItemPointer × List NeighborWithDistance))
    (k : ItemPointer) (v : List NeighborWithDistance) :
    lookupNeighbors (mapInsert m k v) k = some v := by
  unfold mapInsert
  rw [lookupNeighbors_append_filter]
  simp [lookupNeighbors]

theorem countKey_mapInsert (m : List (ItemPointer × List NeighborWithDistance))
    (k : ItemPointer) (v : List NeighborWithDistance) :
    ((mapInsert m k v).filter fun e => decide (e.1 = k)).length = 1 := by
  induction m with
  | nil => simp [mapInsert]
  | cons e rest ih =>
    by_cases he : e.1 = k <;> simp [mapInsert, List.filter_cons, he]

theorem lookupNeighbors_isSome_iff (m : List (ItemPointer × List NeighborWithDistance))
    (k : ItemPointer) :
    (lookupNeighbors m k).isSome = true ↔ ∃ l, (k, l) ∈ m := by
  induction m with
  | nil => simp [lookupNeighbors]
  | cons e rest ih =>
    obtain ⟨k1, v1⟩ := e
    by_cases he : k1 = k
    · subst he
      rw [lookupNeighbors, if_pos rfl]
      simp only [Option.isSome_some, true_iff]
      exact ⟨v1, List.mem_cons_self _ _⟩
    · rw [lookupNeighbors, if_neg he]
      rw [ih]
      constructor
      · rintro ⟨l, hl⟩
        exact ⟨l, List.mem_cons_of_mem _ hl⟩
      · rintro ⟨l, hl⟩
        rcases List.mem_cons.mp hl with h | h
        · exact absurd (congrArg Prod.fst h).symm he
        · exact ⟨l, h⟩

theorem chunkItems_end_ptr (bf : Nat) (hfit : 1 ≤ bf) (v : List Int) :
    (if v.length = 0 then zeroPointer
      else (⟨(chunkItems bf (v.length + 1) zeroPointer 0 v).length, 1⟩ : ItemPointer)) =
    (if (chunkItems bf (v.length + 1) zeroPointer 0 v).length = 0 then zeroPointer
      else ⟨(chunkItems bf (v.length + 1) zeroPointer 0 v).length, 1⟩) := by
  by_cases hL0 : v.length = 0
  · rw [if_pos hL0, if_pos (by rw [chunkItems_nil bf _ _ _ _ hL0]; rfl)]
  · rw [if_neg hL0,
      if_neg (by
        rw [chunkItems_length bf hfit (v.length + 1) zeroPointer 0 v (by omega)]
        have := ceil_div_pos bf v.length hfit (by omega)
        omega)]

/-! ## Claim theorems -/

/-- Claim C1: for every centroid tensor of shape `(d0, d1, d2)` (with its
flattened data, as ndarray guarantees, of length `d0 * d1 * d2`), encoding it
with `write_pq` and then decoding with `read_pq` returns a tensor equal to
the original: the concatenation of chunks followed in chain order reproduces
the flattened element sequence exactly, in the same memory order, for every
length `L` relative to the per-page capacity `block_fit ≥ 1` (including
`L = 0`, `L <` capacity, `L =` capacity, and `L` spanning several pages).
The decode fuel `L + 1` is enough for the loop to reach the sentinel. -/
theorem c1_write_read_round_trip (block_fit : Nat) (pq : Pq)
    (hfit : 1 ≤ block_fit)
    (hshape : pq.data.length = pq.dim_0 * pq.dim_1 * pq.dim_2) :
    read_pq (write_pq block_fit pq).1 (write_pq block_fit pq).2
      (pq.data.length + 1) = some pq := by
  obtain ⟨d0, d1, d2, v⟩ := pq
  simp only at hshape
  have hw := writePqLoop_spec block_fit hfit (v.length + 1) v zeroPointer Tape.new
    (by omega)
  simp only [Tape.new, List.length_nil, List.nil_append, Nat.zero_add] at hw
  have hlen := chunkItems_length block_fit hfit (v.length + 1) zeroPointer 0 v (by omega)
  have hkle : (chunkItems block_fit (v.length + 1) zeroPointer 0 v).length ≤ v.length := by
    rw [hlen]
    exact ceil_div_le _ _ hfit
  have hnext : ∀ (j : Nat) (c : PqQuantizerVector),
      (chunkItems block_fit (v.length + 1) zeroPointer 0 v)[j]? = some c →
      c.next_vector_pointer = if j = 0 then zeroPointer else ⟨j, 1⟩ := by
    intro j c hc
    have h := chunkItems_next block_fit (v.length + 1) zeroPointer 0 v j c hc
    simpa using h
  have hcontent := chunkItems_content block_fit hfit (v.length + 1) zeroPointer 0 v
    (by omega)
  have hend := chunkItems_end_ptr block_fit hfit v
  have hdec := readPqLoop_chain (chunkItems block_fit (v.length + 1) zeroPointer 0 v)
    hnext (chunkItems block_fit (v.length + 1) zeroPointer 0 v).length (Nat.le_refl _)
    [] (v.length + 1) (by omega)
  rw [List.take_length, hcontent, List.nil_append] at hdec
  simp only [write_pq, read_pq, PqQuantizerDef.new, Tape.new]
  rw [hw]
  dsimp only
  rw [hend, hdec]
  simp only [Array3.from_shape_vec, if_pos hshape]

/-- Claim C1, witness: a concrete (1, 2, 2) tensor with 4 elements and page
capacity 3 (so the chain spans two pages) decodes back to itself. -/
theorem c1_witness :
    1 ≤ 3 ∧ ([1, 2, 3, 4] : List Int).length = 1 * 2 * 2 ∧
    read_pq (write_pq 3 ⟨1, 2, 2, [1, 2, 3, 4]⟩).1 (write_pq 3 ⟨1, 2, 2, [1, 2, 3, 4]⟩).2
      (([1, 2, 3, 4] : List Int).length + 1) = some ⟨1, 2, 2, [1, 2, 3, 4]⟩ :=
  ⟨by decide, by decide,
    c1_write_read_round_trip 3 ⟨1, 2, 2, [1, 2, 3, 4]⟩ (by decide) (by decide)⟩

/-- Claim C2 (amended): for every chain produced by `write_pq` with capacity
`block_fit ≥ 1`, the decode loop performs exactly
`(L + block_fit - 1) / block_fit = ⌈L / block_fit⌉` chain hops, which is
within the claimed bound `⌈L / max 1 block_fit⌉`; the corruption-fault half
of the claim fails on the code (see the counterexample): the loop has no hop
bound and no fault path for a chain lacking a zero/zero terminator. -/
theorem c2_chain_hops (block_fit : Nat) (pq : Pq) (hfit : 1 ≤ block_fit) :
    readPqHops (write_pq block_fit pq).1 (pq.data.length + 1)
        (write_pq block_fit pq).2.next_vector_pointer =
      (pq.data.length + block_fit - 1) / block_fit
    ∧ (pq.data.length + block_fit - 1) / block_fit ≤
        (pq.data.length + max 1 block_fit - 1) / max 1 block_fit := by
  obtain ⟨d0, d1, d2, v⟩ := pq
  have hw := writePqLoop_spec block_fit hfit (v.length + 1) v zeroPointer Tape.new
    (by omega)
  simp only [Tape.new, List.length_nil, List.nil_append, Nat.zero_add] at hw
  have hlen := chunkItems_length block_fit hfit (v.length + 1) zeroPointer 0 v (by omega)
  have hkle : (chunkItems block_fit (v.length + 1) zeroPointer 0 v).length ≤ v.length := by
    rw [hlen]
    exact ceil_div_le _ _ hfit
  have hnext : ∀ (j : Nat) (c : PqQuantizerVector),
      (chunkItems block_fit (v.length + 1) zeroPointer 0 v)[j]? = some c →
      c.next_vector_pointer = if j = 0 then zeroPointer else ⟨j, 1⟩ := by
    intro j c hc
    have h := chunkItems_next block_fit (v.length + 1) zeroPointer 0 v j c hc
    simpa using h
  have hend := chunkItems_end_ptr block_fit hfit v
  have hhops := readPqHops_chain (chunkItems block_fit (v.length + 1) zeroPointer 0 v)
    hnext (chunkItems block_fit (v.length + 1) zeroPointer 0 v).length (Nat.le_refl _)
    (v.length + 1) (by omega)
  constructor
  · simp only [write_pq, PqQuantizerDef.new, Tape.new]
    rw [hw]
    dsimp only
    rw [hend, hhops, hlen]
  · rw [Nat.max_eq_right hfit]

/-- Claim C2 (amended), witness: the two-chunk chain written for a concrete
4-element tensor with capacity 3 is decoded in exactly `⌈4 / 3⌉ = 2` hops. -/
theorem c2_witness :
    1 ≤ 3
    ∧ readPqHops (write_pq 3 ⟨1, 2, 2, [1, 2, 3, 4]⟩).1
        (([1, 2, 3, 4] : List Int).length + 1)
        (write_pq 3 ⟨1, 2, 2, [1, 2, 3, 4]⟩).2.next_vector_pointer = 2 :=
  ⟨by decide, (c2_chain_hops 3 ⟨1, 2, 2, [1, 2, 3, 4]⟩ (by decide)).1⟩

/-- Claim C2, counterexample to the claim as stated: a corrupted chain — a
single stored chunk at address `⟨1, 1⟩` whose back-pointer is itself — under
a header declaring a one-element tensor (`L = 1`, capacity 2, claimed bound
`⌈1 / max 1 2⌉ = 1`).  Running the decode loop for 4 steps performs 4 hops,
more than the bound, and ends still `running` (accumulating the same chunk
over and over): no corruption fault is reported, contradicting the claim
that decoding performs no more hops than the bound and faults otherwise. -/
theorem c2_counterexample :
    readPqHops ⟨[⟨[5], ⟨1, 1⟩⟩]⟩ 4 (⟨1, 1⟩ : ItemPointer) = 4
    ∧ (1 + max 1 2 - 1) / max 1 2 = 1
    ∧ readPqLoop ⟨[⟨[5], ⟨1, 1⟩⟩]⟩ 4 (⟨1, 1⟩ : ItemPointer) [] =
        ChainResult.running ⟨1, 1⟩ [5, 5, 5, 5] := by
  decide

/-- Claim C4: `write_pq` splits the flattened tensor into chunks from the
tail — the chunk payloads on the tape, in write order, are exactly the
spec's tail-first chunking (each chunk the last `fit_per_page` remaining
elements, or all remaining if fewer, until none remain); each chunk carries
a back-pointer to the previously written chunk (the zero/zero pointer for
the first chunk written, the `j`-th written chunk being stored at address
`⟨j + 1, 1⟩`); and the header record, built only after the loop, holds the
shape triple, the total element count, and a pointer to the last-written
chunk (zero/zero when there is none). -/
theorem c4_write_pq_structure (block_fit : Nat) (pq : Pq) (hfit : 1 ≤ block_fit) :
    ((write_pq block_fit pq).1.items.map fun c => c.vec) =
        specTailChunks block_fit (pq.data.length + 1) pq.data
    ∧ (∀ (j : Nat) (c : PqQuantizerVector),
        (write_pq block_fit pq).1.items[j]? = some c →
        c.next_vector_pointer = if j = 0 then zeroPointer else ⟨j, 1⟩)
    ∧ (write_pq block_fit pq).2.dim_0 = pq.dim_0
    ∧ (write_pq block_fit pq).2.dim_1 = pq.dim_1
    ∧ (write_pq block_fit pq).2.dim_2 = pq.dim_2
    ∧ (write_pq block_fit pq).2.vec_len = pq.data.length
    ∧ (write_pq block_fit pq).2.next_vector_pointer =
        (if (write_pq block_fit pq).1.items.length = 0 then zeroPointer
         else ⟨(write_pq block_fit pq).1.items.length, 1⟩) := by
  obtain ⟨d0, d1, d2, v⟩ := pq
  have hw := writePqLoop_spec block_fit hfit (v.length + 1) v zeroPointer Tape.new
    (by omega)
  simp only [Tape.new, List.length_nil, List.nil_append, Nat.zero_add] at hw
  have hend := chunkItems_end_ptr block_fit hfit v
  simp only [write_pq, PqQuantizerDef.new, Tape.new]
  rw [hw]
  dsimp only
  refine ⟨chunkItems_map_vec block_fit (v.length + 1) zeroPointer 0 v, ?_, by trivial,
    by trivial, by trivial, by trivial, hend⟩
  intro j c hc
  have h := chunkItems_next block_fit (v.length + 1) zeroPointer 0 v j c hc
  simpa using h

/-- Claim C4, witness: for the concrete 4-element tensor with capacity 3 the
written chunks are `[4]`-tail-first (`[2, 3, 4]` then `[1]` in write order),
the first written chunk's back-pointer is zero/zero, and the header points
at the last-written chunk (address `⟨2, 1⟩`). -/
theorem c4_witness :
    1 ≤ 3
    ∧ ((write_pq 3 ⟨1, 2, 2, [1, 2, 3, 4]⟩).1.items.map fun c => c.vec) =
        specTailChunks 3 (([1, 2, 3, 4] : List Int).length + 1) [1, 2, 3, 4]
    ∧ (write_pq 3 ⟨1, 2, 2, [1, 2, 3, 4]⟩).2.next_vector_pointer =
        (if (write_pq 3 ⟨1, 2, 2, [1, 2, 3, 4]⟩).1.items.length = 0 then zeroPointer
         else ⟨(write_pq 3 ⟨1, 2, 2, [1, 2, 3, 4]⟩).1.items.length, 1⟩) :=
  ⟨by decide, (c4_write_pq_structure 3 ⟨1, 2, 2, [1, 2, 3, 4]⟩ (by decide)).1,
    (c4_write_pq_structure 3 ⟨1, 2, 2, [1, 2, 3, 4]⟩ (by decide)).2.2.2.2.2.2⟩

/-- Claim C5: `read_pq` rejects (fails on) any decode in which the number of
elements assembled from the chain differs from the total element count the
header declares through its shape triple (`Array3::from_shape_vec` checks
the length and the `.unwrap()` aborts); it never silently returns a tensor
built from a mismatched element count. -/
theorem c5_size_mismatch_rejected (t : Tape) (hdr : PqQuantizerDef) (fuel : Nat)
    (result : List Int)
    (hres : readPqLoop t fuel hdr.next_vector_pointer [] = .done result)
    (hne : result.length ≠ hdr.dim_0 * hdr.dim_1 * hdr.dim_2) :
    read_pq t hdr fuel = none := by
  unfold read_pq
  rw [hres]
  simp [Array3.from_shape_vec, hne]

/-- Claim C5, witness: a chain assembling one element under a header whose
shape declares two elements is rejected. -/
theorem c5_witness :
    readPqLoop ⟨[⟨[5], zeroPointer⟩]⟩ 3
        (PqQuantizerDef.mk 1 1 2 2 ⟨1, 1⟩).next_vector_pointer [] =
      ChainResult.done [5]
    ∧ ([5] : List Int).length ≠ 1 * 1 * 2
    ∧ read_pq ⟨[⟨[5], zeroPointer⟩]⟩ ⟨1, 1, 2, 2, ⟨1, 1⟩⟩ 3 = none :=
  ⟨by decide, by decide,
    c5_size_mismatch_rejected ⟨[⟨[5], zeroPointer⟩]⟩ ⟨1, 1, 2, 2, ⟨1, 1⟩⟩ 3 [5]
      (by decide) (by decide)⟩

/-- Claim C10: every quantizer header written by `write_pq` satisfies
`vec_len = dim_0 * dim_1 * dim_2` (the source stores the flattened length,
which for an ndarray tensor equals the shape product), and `read_pq` never
consults the header's `vec_len`: its result is invariant under replacing
`vec_len` by any value, the expected element count being derived solely from
the shape triple. -/
theorem c10_vec_len_unused (block_fit : Nat) (pq : Pq)
    (hshape : pq.data.length = pq.dim_0 * pq.dim_1 * pq.dim_2) :
    (write_pq block_fit pq).2.vec_len =
        (write_pq block_fit pq).2.dim_0 * (write_pq block_fit pq).2.dim_1 *
          (write_pq block_fit pq).2.dim_2
    ∧ ∀ (t : Tape) (hdr : PqQuantizerDef) (n fuel : Nat),
        read_pq t { hdr with vec_len := n } fuel = read_pq t hdr fuel := by
  constructor
  · obtain ⟨d0, d1, d2, v⟩ := pq
    simpa [write_pq, PqQuantizerDef.new] using hshape
  · intro t hdr n fuel
    obtain ⟨d0, d1, d2, vl, p⟩ := hdr
    rfl

/-- Claim C10, witness: the header written for a concrete (1, 1, 2) tensor
has `vec_len` equal to its shape product, and a concrete decode is unchanged
when the header's `vec_len` is overwritten with 99. -/
theorem c10_witness :
    ([1, 2] : List Int).length = 1 * 1 * 2
    ∧ (write_pq 3 ⟨1, 1, 2, [1, 2]⟩).2.vec_len =
        (write_pq 3 ⟨1, 1, 2, [1, 2]⟩).2.dim_0 * (write_pq 3 ⟨1, 1, 2, [1, 2]⟩).2.dim_1 *
          (write_pq 3 ⟨1, 1, 2, [1, 2]⟩).2.dim_2
    ∧ read_pq ⟨[⟨[1, 2], zeroPointer⟩]⟩
        { (⟨1, 1, 2, 2, ⟨1, 1⟩⟩ : PqQuantizerDef) with vec_len := 99 } 3 =
        read_pq ⟨[⟨[1, 2], zeroPointer⟩]⟩ ⟨1, 1, 2, 2, ⟨1, 1⟩⟩ 3 :=
  ⟨by decide, (c10_vec_len_unused 3 ⟨1, 1, 2, [1, 2]⟩ (by decide)).1,
    (c10_vec_len_unused 3 ⟨1, 1, 2, [1, 2]⟩ (by decide)).2
      ⟨[⟨[1, 2], zeroPointer⟩]⟩ ⟨1, 1, 2, 2, ⟨1, 1⟩⟩ 99 3⟩

/-- Claim C3: during `write`, a node whose in-memory neighbor list has length
at most `max_fan_out` is persisted unchanged without invoking the pruning
policy, and a node whose list exceeds `max_fan_out` has the policy invoked
exactly once and the policy's output persisted instead: the persisted
entries are this per-node rule mapped over the adjacency map, the
`num_prunes` counter (incremented exactly when the policy is invoked) equals
the number of over-capacity nodes, and — the policy's contract bounding its
output by `max_fan_out` — every persisted list has length at most
`max_fan_out`. -/
theorem c3_pruning_boundary (g : BuilderGraph)
    (prune : ItemPointer → List NeighborWithDistance)
    (hp : ∀ p, (prune p).length ≤ g.meta_page.get_num_neighbors) :
    (g.write prune).1 = g.neighbor_map.map
        (fun e => if g.meta_page.get_num_neighbors < e.2.length then (e.1, prune e.1) else e)
    ∧ (g.write prune).2.num_prunes =
        (g.neighbor_map.filter
          (fun e => decide (g.meta_page.get_num_neighbors < e.2.length))).length
    ∧ ∀ e ∈ (g.write prune).1, e.2.length ≤ g.meta_page.get_num_neighbors := by
  have h1 : (g.write prune).1 = g.neighbor_map.map
      (fun e => if g.meta_page.get_num_neighbors < e.2.length then (e.1, prune e.1) else e) :=
    writeNodeLoop_fst g.meta_page.get_num_neighbors prune g.neighbor_map WriteStats.new
  refine ⟨h1, ?_, ?_⟩
  · have h2 := writeNodeLoop_prunes g.meta_page.get_num_neighbors prune g.neighbor_map
      WriteStats.new
    simpa [WriteStats.new] using h2
  · intro e he
    rw [h1] at he
    obtain ⟨e0, he0, hfe⟩ := List.mem_map.mp he
    by_cases hc : g.meta_page.get_num_neighbors < e0.2.length
    · rw [if_pos hc] at hfe
      rw [← hfe]
      exact hp e0.1
    · rw [if_neg hc] at hfe
      rw [← hfe]
      omega

/-- Claim C3, witness: a builder with one node holding 2 neighbors under
`max_fan_out = 1` prunes exactly once and persists the pruned singleton. -/
theorem c3_witness :
    ((BuilderGraph.mk [(⟨1, 1⟩, [⟨⟨5, 1⟩, 0⟩, ⟨⟨6, 1⟩, 0⟩])] ⟨some [⟨1, 1⟩], 1⟩).write
        (fun _ => [⟨⟨5, 1⟩, 0⟩])).2.num_prunes = 1
    ∧ ((BuilderGraph.mk [(⟨1, 1⟩, [⟨⟨5, 1⟩, 0⟩, ⟨⟨6, 1⟩, 0⟩])] ⟨some [⟨1, 1⟩], 1⟩).write
        (fun _ => [⟨⟨5, 1⟩, 0⟩])).1 = [(⟨1, 1⟩, [⟨⟨5, 1⟩, 0⟩])] := by
  have h := c3_pruning_boundary
    (BuilderGraph.mk [(⟨1, 1⟩, [⟨⟨5, 1⟩, 0⟩, ⟨⟨6, 1⟩, 0⟩])] ⟨some [⟨1, 1⟩], 1⟩)
    (fun _ => [⟨⟨5, 1⟩, 0⟩]) (fun p => Nat.le_refl 1)
  constructor
  · rw [h.2.1]
    decide
  · rw [h.1]
    decide

/-- Claim C6: the first `set_neighbors` call on a builder whose metadata has
no entry points registers the given node pointer as the sole entry point,
and any `set_neighbors` call on a builder that already has entry points
leaves them unchanged (hence every call after the first). -/
theorem c6_entry_point_bootstrap (g : BuilderGraph) (p : ItemPointer)
    (l : List NeighborWithDistance)
    (h : g.meta_page.get_init_ids = none) :
    (g.set_neighbors p l).meta_page.get_init_ids = some [p]
    ∧ ∀ (g2 : BuilderGraph) (q : ItemPointer) (m : List NeighborWithDistance),
        (g2.meta_page.get_init_ids).isSome = true →
        (g2.set_neighbors q m).meta_page.get_init_ids = g2.meta_page.get_init_ids := by
  constructor
  · rw [MetaPage.get_init_ids] at h
    simp [BuilderGraph.set_neighbors, MetaPage.get_init_ids, h]
  · intro g2 q m hs
    obtain ⟨ids, hids⟩ := Option.isSome_iff_exists.mp hs
    rw [MetaPage.get_init_ids] at hids
    simp [BuilderGraph.set_neighbors, MetaPage.get_init_ids, hids]

/-- Claim C6, witness: on a fresh builder the first call registers `⟨1, 1⟩`
as the sole entry point and a second call (for another node) leaves it
unchanged. -/
theorem c6_witness :
    ((⟨[], ⟨none, 5⟩⟩ : BuilderGraph).set_neighbors ⟨1, 1⟩ []).meta_page.get_init_ids =
      some [⟨1, 1⟩]
    ∧ (((⟨[], ⟨none, 5⟩⟩ : BuilderGraph).set_neighbors ⟨1, 1⟩ []).set_neighbors
        ⟨2, 1⟩ []).meta_page.get_init_ids = some [⟨1, 1⟩] := by
  have h := c6_entry_point_bootstrap (⟨[], ⟨none, 5⟩⟩ : BuilderGraph) ⟨1, 1⟩ [] rfl
  refine ⟨h.1, ?_⟩
  rw [h.2 _ ⟨2, 1⟩ [] (by rw [h.1]; rfl), h.1]

/-- Claim C7: calling `set_neighbors` twice with the same node pointer
leaves exactly one adjacency list associated with that pointer — the one
supplied by the second call; the two lists are not accumulated. -/
theorem c7_idempotent_overwrite (g : BuilderGraph) (p : ItemPointer)
    (l1 l2 : List NeighborWithDistance) :
    lookupNeighbors ((g.set_neighbors p l1).set_neighbors p l2).neighbor_map p = some l2
    ∧ (((g.set_neighbors p l1).set_neighbors p l2).neighbor_map.filter
        (fun e => decide (e.1 = p))).length = 1 :=
  ⟨lookupNeighbors_mapInsert _ p l2, countKey_mapInsert _ p l2⟩

/-- Claim C8: `get_neighbors_with_distances` returns `found = true` exactly
when the node is present in the builder's adjacency map (also when its
stored neighbor list is empty), and `found = false` exactly when the node is
unknown to the graph. -/
theorem c8_found_flag (g : BuilderGraph) (p : ItemPointer)
    (result : List NeighborWithDistance) :
    (g.get_neighbors_with_distances p result).2 = true ↔ ∃ l, (p, l) ∈ g.neighbor_map := by
  rw [← lookupNeighbors_isSome_iff]
  unfold BuilderGraph.get_neighbors_with_distances
  cases h : lookupNeighbors g.neighbor_map p <;> simp [h]

/-- Claim C9: calling `write` on an empty builder (`is_empty` true) persists
zero nodes and returns statistics with all counters zero. -/
theorem c9_empty_write (g : BuilderGraph)
    (prune : ItemPointer → List NeighborWithDistance)
    (hemp : g.is_empty = true) :
    (g.write prune).1 = []
    ∧ (g.write prune).2.num_nodes = 0
    ∧ (g.write prune).2.num_prunes = 0
    ∧ (g.write prune).2.num_neighbors_before_prune = 0
    ∧ (g.write prune).2.num_neighbors_after_prune = 0
    ∧ (g.write prune).2.num_neighbors = 0 := by
  have hm : g.neighbor_map = [] := by
    simp only [BuilderGraph.is_empty, beq_iff_eq] at hemp
    exact List.length_eq_zero.mp hemp
  unfold BuilderGraph.write
  rw [hm]
  exact ⟨rfl, rfl, rfl, rfl, rfl, rfl⟩

/-- Claim C9, witness: the concrete empty builder persists nothing and its
node and prune counters are zero. -/
theorem c9_witness :
    (⟨[], ⟨none, 5⟩⟩ : BuilderGraph).is_empty = true
    ∧ ((⟨[], ⟨none, 5⟩⟩ : BuilderGraph).write (fun _ => [])).1 = []
    ∧ ((⟨[], ⟨none, 5⟩⟩ : BuilderGraph).write (fun _ => [])).2.num_nodes = 0 :=
  ⟨rfl, (c9_empty_write (⟨[], ⟨none, 5⟩⟩ : BuilderGraph) (fun _ => []) rfl).1,
    (c9_empty_write (⟨[], ⟨none, 5⟩⟩ : BuilderGraph) (fun _ => []) rfl).2.1⟩

end PgVS
